import Mathlib

/-
  Verification development for the nam-shub repository.

  The repository simulates state propagation over a network of agents:
  infected agents debate healthy neighbours, an external LLM judge decides
  each debate, and the verdict is applied back to the agent registry.

  The Rust sources are embedded shallowly:
  - HashMap / HashSet state becomes association lists over Nat keys
    (first-match lookup, in-place first-match update, insertion order kept);
  - fallible functions returning Result<T, String> become Except String T;
  - the external LLM resolver is abstracted as an oracle function from the
    (proposer, opposer) pair to a DebateOutcome;
  - usize arithmetic that can underflow is modelled with Option (none is the
    debug-mode panic).
-/

namespace NamShub

/- ---------------------------------------------------------------------
   Association-list helpers standing in for std HashMap operations.
   --------------------------------------------------------------------- -/

/-- First-match lookup, the model of HashMap::get. -/
def alistLookup {α : Type} : List (Nat × α) → Nat → Option α
  | [], _ => none
  | (k, v) :: rest, key => if k = key then some v else alistLookup rest key

/-- In-place modification of the first entry with the given key, the model of
HashMap::get_mut followed by a write; a missing key leaves the list unchanged. -/
def alistUpdate {α : Type} : List (Nat × α) → Nat → (α → α) → List (Nat × α)
  | [], _, _ => []
  | (k, v) :: rest, key, f =>
    if k = key then (k, f v) :: rest else (k, v) :: alistUpdate rest key f

/-- HashMap::insert: replace the first entry with the key, or append. -/
def alistInsert {α : Type} : List (Nat × α) → Nat → α → List (Nat × α)
  | [], key, v => [(key, v)]
  | (k, w) :: rest, key, v =>
    if k = key then (key, v) :: rest else (k, w) :: alistInsert rest key v

/-- HashMap::entry(key).or_default() followed by a modification of the value:
modify the first entry with the key if present, otherwise append the
modification of the default value. -/
def alistEntryModify {α : Type} (dflt : α) : List (Nat × α) → Nat → (α → α) → List (Nat × α)
  | [], key, f => [(key, f dflt)]
  | (k, v) :: rest, key, f =>
    if k = key then (k, f v) :: rest else (k, v) :: alistEntryModify dflt rest key f

/-- HashSet::insert on a duplicate-free list: no-op when present, append when
absent. -/
def hsInsert (s : List Nat) (v : Nat) : List Nat :=
  if v ∈ s then s else s ++ [v]

/- ---------------------------------------------------------------------
   src/core/src/agent.rs
   --------------------------------------------------------------------- -/

/-- InfectionStatus from agent.rs: Healthy (has not debated), Infected (lost a
debate), Immune (won a debate). Healthy is the derived Default. -/
inductive InfectionStatus where
  | Healthy
  | Infected
  | Immune
deriving DecidableEq, Repr

/-- Agent from agent.rs. The debate_history field (a vector of borrows used
only for logging) is not consulted by any registry, topology or scheduler
logic and is omitted from the embedding. -/
structure Agent where
  id : Nat
  model : String
  infection_status : InfectionStatus
  infected_by : Option Nat
deriving DecidableEq, Repr

/-- Agent::new. -/
def Agent.new (id : Nat) (model : String) : Agent :=
  { id := id, model := model, infection_status := .Healthy, infected_by := none }

/-- Agent::is_infected. -/
def Agent.is_infected (a : Agent) : Bool :=
  match a.infection_status with
  | .Infected => true
  | _ => false

/-- Agent::is_healthy. -/
def Agent.is_healthy (a : Agent) : Bool :=
  match a.infection_status with
  | .Healthy => true
  | _ => false

/-- Agent::is_immune. -/
def Agent.is_immune (a : Agent) : Bool :=
  match a.infection_status with
  | .Immune => true
  | _ => false

/- ---------------------------------------------------------------------
   src/core/src/debate.rs
   --------------------------------------------------------------------- -/

/-- DebateOutcome. The checked-in debate.rs snapshot spells the two winning
variants AttackerWon / DefenderWon, while registry.rs and the whole
debate_engine crate match on ProposerWon / OpposerWon for the same enum; the
embedding uses the engine spelling, with Ongoing the derived Default. -/
inductive DebateOutcome where
  | Ongoing
  | ProposerWon
  | OpposerWon
deriving DecidableEq, Repr

/-- Message from debate.rs (engine field naming). -/
structure Message where
  id : Nat
  message : String
deriving DecidableEq, Repr

/-- Exchange from debate.rs: one message from each side. -/
structure Exchange where
  proposer : Message
  opposer : Message
deriving DecidableEq, Repr

/-- Debate from debate.rs (engine field naming for the two participant ids). -/
structure Debate where
  proposer_id : Nat
  opposer_id : Nat
  max_turns : Nat
  exchanges : List Exchange
  outcome : DebateOutcome
deriving DecidableEq, Repr

/-- Debate::new: empty exchange list, Ongoing outcome. -/
def Debate.new (proposer_id opposer_id : Nat) (max_turns : Nat) : Debate :=
  { proposer_id := proposer_id, opposer_id := opposer_id, max_turns := max_turns,
    exchanges := [], outcome := .Ongoing }

/-- Debate::add_exchange. -/
def Debate.add_exchange (d : Debate) (e : Exchange) : Debate :=
  { d with exchanges := d.exchanges ++ [e] }

/-- Debate::is_complete evaluates exchanges.len() - 1 == max_turns in usize
arithmetic. When the exchange list is empty the subtraction underflows and the
call panics in a debug build; the panic is modelled as none. Otherwise the
boolean value of the comparison is returned. -/
def Debate.is_complete (d : Debate) : Option Bool :=
  if d.exchanges.length = 0 then none
  else some (decide (d.exchanges.length - 1 = d.max_turns))

/-- Debate::set_outcome. -/
def Debate.set_outcome (d : Debate) (outcome : DebateOutcome) : Debate :=
  { d with outcome := outcome }

/- ---------------------------------------------------------------------
   src/core/src/topology.rs
   --------------------------------------------------------------------- -/

/-- Topology from topology.rs: HashMap from agent id to its HashSet of
neighbours, embedded as an association list of duplicate-free lists. -/
structure Topology where
  connections : List (Nat × List Nat)
deriving DecidableEq, Repr

/-- Topology::new. -/
def Topology.new : Topology := { connections := [] }

/-- Topology::are_connected: look up the adjacency set of agent_a and test
membership of agent_b, defaulting to false when agent_a has no entry. -/
def Topology.are_connected (t : Topology) (agent_a agent_b : Nat) : Bool :=
  ((alistLookup t.connections agent_a).map (fun neighbors => neighbors.contains agent_b)).getD
    false

/-- Topology::add_connection: no-op on a self edge, no-op when already
connected, otherwise insert b into the entry of a and a into the entry of b
(creating empty entries on demand, as entry().or_default() does). -/
def Topology.add_connection (t : Topology) (agent_a agent_b : Nat) : Topology :=
  if agent_a = agent_b then t
  else if t.are_connected agent_a agent_b then t
  else
    { connections :=
        alistEntryModify []
          (alistEntryModify [] t.connections agent_a (fun s => hsInsert s agent_b))
          agent_b (fun s => hsInsert s agent_a) }

/-- Topology::get_neighbors: the stored adjacency list, empty when absent. -/
def Topology.get_neighbors (t : Topology) (agent_id : Nat) : List Nat :=
  (alistLookup t.connections agent_id).getD []

/- ---------------------------------------------------------------------
   src/core/src/registry.rs
   --------------------------------------------------------------------- -/

/-- Registry from registry.rs: id counter, agent map, optional topology.
The statistics helpers (floating-point rates) are not needed by any claim and
are omitted. -/
structure Registry where
  next_agent_id : Nat
  agents : List (Nat × Agent)
  topology : Option Topology
deriving DecidableEq, Repr

/-- Registry::new. -/
def Registry.new : Registry :=
  { next_agent_id := 0, agents := [], topology := none }

/-- Registry::create_agent: allocate the next id and insert a fresh agent;
returns the id together with the updated registry (the Rust method mutates in
place and returns the id). -/
def Registry.create_agent (r : Registry) (model : String) : Nat × Registry :=
  let id := r.next_agent_id
  (id,
    { r with
      next_agent_id := id + 1
      agents := alistInsert r.agents id (Agent.new id model) })

/-- Registry::get_agent. -/
def Registry.get_agent (r : Registry) (id : Nat) : Option Agent :=
  alistLookup r.agents id

/-- Registry::agent_count. -/
def Registry.agent_count (r : Registry) : Nat :=
  r.agents.length

/-- Registry::infected_count. -/
def Registry.infected_count (r : Registry) : Nat :=
  (r.agents.filter (fun p => p.2.is_infected)).length

/-- Registry::healthy_count. -/
def Registry.healthy_count (r : Registry) : Nat :=
  (r.agents.filter (fun p => p.2.is_healthy)).length

/-- Registry::immune_count. -/
def Registry.immune_count (r : Registry) : Nat :=
  (r.agents.filter (fun p => p.2.is_immune)).length

/-- Registry::get_infected_agent_ids. -/
def Registry.get_infected_agent_ids (r : Registry) : List Nat :=
  (r.agents.filter (fun p => p.2.is_infected)).map (fun p => p.1)

/-- Registry::infect_patient_init: if the agent exists, set its status to
Infected and clear infected_by, unconditionally; otherwise report that the
agent was not found. -/
def Registry.infect_patient_init (r : Registry) (agent_id : Nat) : Except String Registry :=
  match alistLookup r.agents agent_id with
  | some _ =>
    .ok
      { r with
        agents :=
          alistUpdate r.agents agent_id
            (fun a => { a with infection_status := .Infected, infected_by := none }) }
  | none => .error ("Agent " ++ toString agent_id ++ " not found")

/-- The mutation apply_debate_outcome performs on the opposer agent: infect it
recording the proposer on ProposerWon, make it immune on OpposerWon, leave it
untouched on Ongoing. -/
def applyOutcomeToOpposer (proposer_id : Nat) (outcome : DebateOutcome) (a : Agent) : Agent :=
  match outcome with
  | .ProposerWon => { a with infected_by := some proposer_id, infection_status := .Infected }
  | .OpposerWon => { a with infection_status := .Immune }
  | .Ongoing => a

/-- Registry::apply_debate_outcome: fails only when the opposer id is unknown,
otherwise applies the outcome to the opposer without any eligibility check. -/
def Registry.apply_debate_outcome (r : Registry) (proposer_id opposer_id : Nat)
    (outcome : DebateOutcome) : Except String Registry :=
  match alistLookup r.agents opposer_id with
  | none => .error "opposer not found"
  | some _ =>
    .ok { r with agents := alistUpdate r.agents opposer_id (applyOutcomeToOpposer proposer_id outcome) }

/-- Registry::can_debate: both agents exist, the proposer is infected, the
opposer is healthy, a topology exists and connects the two. -/
def Registry.can_debate (r : Registry) (proposer_id opposer_id : Nat) : Except String Unit :=
  match r.get_agent proposer_id with
  | none => .error ("proposer " ++ toString proposer_id ++ " not found")
  | some proposer =>
    match r.get_agent opposer_id with
    | none => .error ("opposer " ++ toString opposer_id ++ " not found")
    | some opposer =>
      if !proposer.is_infected then
        .error ("proposer " ++ toString proposer_id ++ " is not infected")
      else if !opposer.is_healthy then
        .error ("opposer " ++ toString opposer_id ++ " is not healthy")
      else
        match r.topology with
        | none => .error "Topology does not exist"
        | some topology =>
          if !topology.are_connected proposer_id opposer_id then
            .error
              ("Agents " ++ toString proposer_id ++ " and " ++ toString opposer_id ++
                " are not connected")
          else .ok ()

/-- Registry::get_potential_targets: the healthy neighbours of the infector,
empty when no topology is set. -/
def Registry.get_potential_targets (r : Registry) (infector_id : Nat) : List Nat :=
  match r.topology with
  | none => []
  | some topology =>
    (topology.get_neighbors infector_id).filter
      (fun id => ((r.get_agent id).map (fun a => a.is_healthy)).getD false)

/- ---------------------------------------------------------------------
   src/debate_engine/src/llm/client.rs and src/debate_engine/src/run_debate.rs
   --------------------------------------------------------------------- -/

/-- The substring test used by the judge parser, the model of
str::contains with a string pattern. -/
def strContains (s pat : String) : Bool :=
  decide (List.IsInfix pat.data s.data)

/-- The verdict-parsing tail of judge_debate (identical in llm/client.rs and
run_debate.rs): a response containing "PROPOSITION" yields ProposerWon, else
one containing "OPPOSITION" yields OpposerWon, else the call bails with an
invalid-response error. The transcript construction and the LLM round trip
producing the response string are external and not modelled. -/
def judge_debate_verdict (response : String) : Except String DebateOutcome :=
  if strContains response "PROPOSITION" then .ok .ProposerWon
  else if strContains response "OPPOSITION" then .ok .OpposerWon
  else .error ("Invalid judge response: " ++ response)

/- ---------------------------------------------------------------------
   src/debate_engine/src/simulation.rs: the sequential run loop.

   The external resolver is abstracted as an oracle mapping the
   (proposer, opposer) pair to the outcome its judge would return; run_debate
   keeps its can_debate precondition check, which aborts the run on failure
   exactly as the ? operator does in Simulation::run.
   --------------------------------------------------------------------- -/

/-- The registry-relevant behaviour of run_debate (run_debate.rs): check
can_debate, then obtain the debate outcome from the external resolver
(abstracted as the oracle). -/
def run_debate_outcome (r : Registry) (proposer_id opposer_id : Nat)
    (oracle : Nat → Nat → DebateOutcome) : Except String DebateOutcome :=
  match r.can_debate proposer_id opposer_id with
  | .error e => .error e
  | .ok _ => .ok (oracle proposer_id opposer_id)

/-- The mutable state of Simulation::run: the registry, the frontier deque of
infected agent ids (front at the head), the visited_edges set of attempted
(proposer, opposer) pairs, and the log of completed debates. -/
structure SimState where
  registry : Registry
  frontier : List Nat
  visited : List (Nat × Nat)
  debates : List (Nat × Nat × DebateOutcome)
deriving DecidableEq, Repr

/-- The inner for loop of Simulation::run over the targets of one proposer:
skip pairs already in visited_edges, otherwise record the pair, run the
debate, apply its outcome, and push a newly infected opposer onto the back of
the frontier. -/
def stepTargets (oracle : Nat → Nat → DebateOutcome) (proposer_id : Nat) :
    List Nat → SimState → Except String SimState
  | [], s => .ok s
  | opposer_id :: rest, s =>
    if (proposer_id, opposer_id) ∈ s.visited then
      stepTargets oracle proposer_id rest s
    else
      let s1 : SimState := { s with visited := s.visited ++ [(proposer_id, opposer_id)] }
      match run_debate_outcome s1.registry proposer_id opposer_id oracle with
      | .error e => .error e
      | .ok outcome =>
        match s1.registry.apply_debate_outcome proposer_id opposer_id outcome with
        | .error e => .error e
        | .ok r2 =>
          let s2 : SimState :=
            { registry := r2
              frontier :=
                if outcome = .ProposerWon then s1.frontier ++ [opposer_id] else s1.frontier
              visited := s1.visited
              debates := s1.debates ++ [(proposer_id, opposer_id, outcome)] }
          stepTargets oracle proposer_id rest s2

/-- The while loop of Simulation::run, with explicit fuel bounding the number
of loop iterations (frontier pops): pop the front of the frontier, walk its
potential targets, repeat until the frontier is empty. Running out of fuel
while the frontier is nonempty is an error, so an ok result certifies that
the loop finished within the given number of iterations. -/
def runLoop (oracle : Nat → Nat → DebateOutcome) : Nat → SimState → Except String SimState
  | fuel, s =>
    match s.frontier with
    | [] => .ok s
    | proposer_id :: rest =>
      match fuel with
      | 0 => .error "iteration bound exhausted"
      | fuel' + 1 =>
        let s1 : SimState := { s with frontier := rest }
        match stepTargets oracle proposer_id (s1.registry.get_potential_targets proposer_id) s1 with
        | .error e => .error e
        | .ok s2 => runLoop oracle fuel' s2

/-- The initial state of Simulation::run on a registry: the frontier is the
list of currently infected agent ids, visited_edges and the debate log are
empty. -/
def initState (r : Registry) : SimState :=
  { registry := r, frontier := r.get_infected_agent_ids, visited := [], debates := [] }

/- ---------------------------------------------------------------------
   src/debate_engine/src/simulation/engine.rs: build_debate_batch.
   --------------------------------------------------------------------- -/

/-- The inner for loop of Simulation::build_debate_batch over the potential
targets of one proposer. Returns the extended batch and used-opposer set,
plus a flag recording whether the max_parallel_debates bound was reached (the
early return in the Rust code). -/
def batchInner (max_parallel : Nat) (proposer_id : Nat) :
    List Nat → List (Nat × Nat) → List Nat → List (Nat × Nat) × List Nat × Bool
  | [], batch, used => (batch, used, false)
  | opposer_id :: rest, batch, used =>
    if opposer_id ∈ used then batchInner max_parallel proposer_id rest batch used
    else
      let batch1 := batch ++ [(proposer_id, opposer_id)]
      let used1 := used ++ [opposer_id]
      if max_parallel ≤ batch1.length then (batch1, used1, true)
      else batchInner max_parallel proposer_id rest batch1 used1

/-- The outer for loop of Simulation::build_debate_batch over the infected
deque. -/
def batchOuter (max_parallel : Nat) (r : Registry) :
    List Nat → List (Nat × Nat) → List Nat → List (Nat × Nat)
  | [], batch, _ => batch
  | proposer_id :: rest, batch, used =>
    match batchInner max_parallel proposer_id (r.get_potential_targets proposer_id) batch used with
    | (batch1, used1, full) =>
      if full then batch1 else batchOuter max_parallel r rest batch1 used1

/-- Simulation::build_debate_batch: collect (proposer, opposer) pairs over the
infected deque, claiming each opposer at most once, and stop as soon as the
batch reaches max_parallel_debates pairs. -/
def build_debate_batch (max_parallel : Nat) (r : Registry) (infected_deque : List Nat) :
    List (Nat × Nat) :=
  batchOuter max_parallel r infected_deque [] []

/- ---------------------------------------------------------------------
   Verification-support definitions.
   --------------------------------------------------------------------- -/

/-- Boolean observation: the agent with this id exists and is infected. -/
def infectedB (r : Registry) (id : Nat) : Bool :=
  ((r.get_agent id).map Agent.is_infected).getD false

/-- Boolean observation: the agent with this id exists and is healthy. -/
def healthyB (r : Registry) (id : Nat) : Bool :=
  ((r.get_agent id).map Agent.is_healthy).getD false

/-- The agent map has duplicate-free keys; HashMap guarantees this invariant
for the Rust registry, and create_agent / the update operations preserve it. -/
def KeysNodup (r : Registry) : Prop :=
  (r.agents.map Prod.fst).Nodup

/-- Every stored adjacency list is duplicate-free; HashSet guarantees this
invariant for the Rust topology. -/
def topoWFb (ot : Option Topology) : Bool :=
  match ot with
  | none => true
  | some t => t.connections.all (fun e => decide e.2.Nodup)

/-- The ordered (proposer, opposer) pair of a logged debate. -/
def debatePair (d : Nat × Nat × DebateOutcome) : Nat × Nat :=
  (d.1, d.2.1)

/-- One reconciliation step of a run, as both schedulers perform it: a
proposer attacks an opposer drawn from its potential targets (hence healthy
and connected at apply time) and the outcome is applied to the registry. -/
def ReconStep (r r2 : Registry) : Prop :=
  ∃ proposer_id opposer_id outcome,
    opposer_id ∈ r.get_potential_targets proposer_id ∧
    r.apply_debate_outcome proposer_id opposer_id outcome = .ok r2

/- Concrete fixtures used by counterexamples and witnesses: two agents 0 and
1 joined by an edge, agent 0 seeded, and agent 1 infected by agent 0 through
a ProposerWon debate outcome. -/

/-- Two fresh agents with an edge between them, agent 0 seeded infected. -/
def seededRegistry : Registry :=
  let r1 := (Registry.new.create_agent "m").2
  let r2 := (r1.create_agent "m").2
  let r3 := { r2 with topology := some (Topology.new.add_connection 0 1) }
  match r3.infect_patient_init 0 with
  | .ok r => r
  | .error _ => r3

/-- seededRegistry after agent 0 won a debate against agent 1: agent 1 is
Infected with infected_by = some 0. -/
def demoRegistry : Registry :=
  match seededRegistry.apply_debate_outcome 0 1 .ProposerWon with
  | .ok r => r
  | .error _ => seededRegistry

/-- The stored value of agent 1 in demoRegistry. -/
def demoAgent1 : Agent :=
  { id := 1, model := "m", infection_status := .Infected, infected_by := some 0 }

/-- A resolver oracle on which the proposer always wins. -/
def proposerOracle : Nat → Nat → DebateOutcome :=
  fun _ _ => .ProposerWon

/-- A three-exchange debate with max_turns = 2, exercising is_complete away
from the underflow case. -/
def demoDebate : Debate :=
  { proposer_id := 0, opposer_id := 1, max_turns := 2,
    exchanges :=
      [ { proposer := { id := 0, message := "a" }, opposer := { id := 1, message := "b" } },
        { proposer := { id := 2, message := "c" }, opposer := { id := 3, message := "d" } },
        { proposer := { id := 4, message := "e" }, opposer := { id := 5, message := "f" } } ],
    outcome := .Ongoing }

/- ---------------------------------------------------------------------
   Helper lemmas about the association-list embedding of HashMap.
   --------------------------------------------------------------------- -/

theorem alistLookup_update_self {α : Type} (l : List (Nat × α)) (k : Nat) (f : α → α) (v : α)
    (h : alistLookup l k = some v) : alistLookup (alistUpdate l k f) k = some (f v) := by
  induction l with
  | nil => simp [alistLookup] at h
  | cons hd tl ih =>
    obtain ⟨k0, v0⟩ := hd
    by_cases hk : k0 = k
    · subst hk
      simp [alistLookup] at h
      simp [alistUpdate, alistLookup, h]
    · simp only [alistLookup, if_neg hk] at h
      simp [alistUpdate, alistLookup, hk, ih h]

theorem alistLookup_update_other {α : Type} (l : List (Nat × α)) (k k2 : Nat) (f : α → α)
    (h : k2 ≠ k) : alistLookup (alistUpdate l k f) k2 = alistLookup l k2 := by
  induction l with
  | nil => simp [alistUpdate]
  | cons hd tl ih =>
    obtain ⟨k0, v0⟩ := hd
    by_cases hk : k0 = k
    · subst hk
      simp [alistUpdate, alistLookup, Ne.symm h]
    · by_cases hk2 : k0 = k2
      · subst hk2
        simp [alistUpdate, alistLookup, hk]
      · simp [alistUpdate, alistLookup, hk, hk2, ih]

theorem alistUpdate_id {α : Type} (l : List (Nat × α)) (k : Nat) :
    alistUpdate l k (fun a => a) = l := by
  induction l with
  | nil => rfl
  | cons hd tl ih =>
    obtain ⟨k0, v0⟩ := hd
    by_cases hk : k0 = k <;> simp [alistUpdate, hk, ih]

theorem alistUpdate_keys {α : Type} (l : List (Nat × α)) (k : Nat) (f : α → α) :
    (alistUpdate l k f).map Prod.fst = l.map Prod.fst := by
  induction l with
  | nil => rfl
  | cons hd tl ih =>
    obtain ⟨k0, v0⟩ := hd
    by_cases hk : k0 = k <;> simp [alistUpdate, hk, ih]

theorem alistLookup_mem {α : Type} (l : List (Nat × α)) (k : Nat) (v : α)
    (h : alistLookup l k = some v) : (k, v) ∈ l := by
  induction l with
  | nil => simp [alistLookup] at h
  | cons hd tl ih =>
    obtain ⟨k0, v0⟩ := hd
    by_cases hk : k0 = k
    · subst hk
      simp [alistLookup] at h
      simp [h]
    · simp only [alistLookup, if_neg hk] at h
      exact List.mem_cons_of_mem _ (ih h)

theorem alistLookup_of_mem {α : Type} (l : List (Nat × α)) (k : Nat) (v : α)
    (hnd : (l.map Prod.fst).Nodup) (h : (k, v) ∈ l) : alistLookup l k = some v := by
  induction l with
  | nil => simp at h
  | cons hd tl ih =>
    obtain ⟨k0, v0⟩ := hd
    simp only [List.map_cons, List.nodup_cons] at hnd
    rcases List.mem_cons.mp h with heq | hmem
    · have hk : k = k0 := congrArg Prod.fst heq
      have hv : v = v0 := congrArg Prod.snd heq
      subst hk
      subst hv
      simp [alistLookup]
    · have hk0 : k0 ≠ k := by
        intro hk0
        exact hnd.1 (hk0 ▸ (List.mem_map.mpr ⟨(k, v), hmem, rfl⟩))
      simp only [alistLookup, if_neg hk0]
      exact ih hnd.2 hmem

theorem alistUpdate_filter_length {α : Type} (P : Nat × α → Bool) (l : List (Nat × α))
    (k : Nat) (f : α → α) (v : α) (hnd : (l.map Prod.fst).Nodup)
    (h : alistLookup l k = some v) :
    ((alistUpdate l k f).filter P).length + (if P (k, v) then 1 else 0) =
      (l.filter P).length + (if P (k, f v) then 1 else 0) := by
  induction l with
  | nil => simp [alistLookup] at h
  | cons hd tl ih =>
    obtain ⟨k0, v0⟩ := hd
    simp only [List.map_cons, List.nodup_cons] at hnd
    by_cases hk : k0 = k
    · subst hk
      have hv : v0 = v := by simpa [alistLookup] using h
      subst hv
      by_cases h1 : P (k0, v0) <;> by_cases h2 : P (k0, f v0) <;>
        simp [alistUpdate, List.filter_cons, h1, h2]
    · simp only [alistLookup, if_neg hk] at h
      simp only [alistUpdate, if_neg hk]
      have ihh := ih hnd.2 h
      by_cases h0 : P (k0, v0) <;> simp [List.filter_cons, h0] <;> omega

/- ---------------------------------------------------------------------
   C7: conservation of the status partition.
   --------------------------------------------------------------------- -/

theorem status_filter_partition (l : List (Nat × Agent)) :
    (l.filter (fun p => p.2.is_healthy)).length + (l.filter (fun p => p.2.is_infected)).length +
      (l.filter (fun p => p.2.is_immune)).length = l.length := by
  induction l with
  | nil => rfl
  | cons hd tl ih =>
    obtain ⟨k, a⟩ := hd
    obtain ⟨aid, amodel, st, ainf⟩ := a
    cases st <;>
      simp [List.filter_cons, Agent.is_healthy, Agent.is_infected, Agent.is_immune] at ih ⊢ <;>
      omega

/-- C7: for every registry, the healthy, infected and immune counts partition
the agent set: healthy_count + infected_count + immune_count = agent_count.
Since this holds for every registry value, it holds in particular before and
after every application of a contest outcome during a run. -/
theorem counts_partition_registry (r : Registry) :
    r.healthy_count + r.infected_count + r.immune_count = r.agent_count :=
  status_filter_partition r.agents

/- ---------------------------------------------------------------------
   C9: Debate::is_complete underflow and off-by-one.
   --------------------------------------------------------------------- -/

/-- C9: is_complete computes exchanges.len() - 1 == max_turns in usize
arithmetic, so on an empty exchange list (in particular on any debate built
by Debate::new) the subtraction underflows and no boolean is returned
(modelled as none); on a non-empty list it reports completion exactly when
the exchange count is max_turns + 1, not max_turns. -/
theorem is_complete_underflow_off_by_one (d : Debate) (p o m : Nat) :
    (Debate.new p o m).is_complete = none ∧
    (d.exchanges = [] → d.is_complete = none) ∧
    (d.exchanges ≠ [] → (d.is_complete = some true ↔ d.exchanges.length = d.max_turns + 1)) := by
  refine ⟨rfl, fun h => by simp [Debate.is_complete, h], fun h => ?_⟩
  have hpos : 0 < d.exchanges.length := List.length_pos.mpr h
  simp only [Debate.is_complete, if_neg (by omega : ¬d.exchanges.length = 0),
    Option.some.injEq, decide_eq_true_eq]
  omega

theorem is_complete_underflow_off_by_one_witness :
    demoDebate.exchanges ≠ [] ∧ demoDebate.is_complete = some true ∧
    (Debate.new 0 1 2).is_complete = none :=
  ⟨by decide,
    ((is_complete_underflow_off_by_one demoDebate 0 1 2).2.2 (by decide)).mpr (by decide),
    (is_complete_underflow_off_by_one demoDebate 0 1 2).1⟩

/- ---------------------------------------------------------------------
   C5: the verdict parser on ambiguous judge responses.
   --------------------------------------------------------------------- -/

/-- C5 counterexample: a judge response naming both sides does not fail; the
parser returns ProposerWon because the PROPOSITION branch is checked first.
This refutes the claim that every response not naming exactly one winner is
an error. -/
theorem judge_verdict_both_sides_counterexample :
    strContains "WINNER: PROPOSITION, not OPPOSITION" "PROPOSITION" = true ∧
    strContains "WINNER: PROPOSITION, not OPPOSITION" "OPPOSITION" = true ∧
    judge_debate_verdict "WINNER: PROPOSITION, not OPPOSITION" = .ok .ProposerWon := by
  have h1 : strContains "WINNER: PROPOSITION, not OPPOSITION" "PROPOSITION" = true := by decide
  have h2 : strContains "WINNER: PROPOSITION, not OPPOSITION" "OPPOSITION" = true := by decide
  exact ⟨h1, h2, by simp [judge_debate_verdict, h1]⟩

/-- C5 amended: the parser fails exactly on responses naming neither side; a
response containing PROPOSITION parses as ProposerWon regardless of whether
it also contains OPPOSITION, and a response containing only OPPOSITION parses
as OpposerWon. -/
theorem judge_verdict_first_match (response : String) :
    (strContains response "PROPOSITION" = true →
      judge_debate_verdict response = .ok .ProposerWon) ∧
    (strContains response "PROPOSITION" = false → strContains response "OPPOSITION" = true →
      judge_debate_verdict response = .ok .OpposerWon) ∧
    (strContains response "PROPOSITION" = false → strContains response "OPPOSITION" = false →
      judge_debate_verdict response = .error ("Invalid judge response: " ++ response)) :=
  ⟨fun h1 => by simp [judge_debate_verdict, h1],
    fun h1 h2 => by simp [judge_debate_verdict, h1, h2],
    fun h1 h2 => by simp [judge_debate_verdict, h1, h2]⟩

theorem judge_verdict_first_match_witness :
    judge_debate_verdict "WINNER: OPPOSITION" = .ok .OpposerWon :=
  (judge_verdict_first_match "WINNER: OPPOSITION").2.1 (by decide) (by decide)

/- ---------------------------------------------------------------------
   C8: the add_connection contract.
   --------------------------------------------------------------------- -/

theorem alistLookup_entryModify_self {α : Type} (dflt : α) (l : List (Nat × α)) (k : Nat)
    (f : α → α) :
    alistLookup (alistEntryModify dflt l k f) k = some (f ((alistLookup l k).getD dflt)) := by
  induction l with
  | nil => simp [alistEntryModify, alistLookup]
  | cons hd tl ih =>
    obtain ⟨k0, v0⟩ := hd
    by_cases hk : k0 = k
    · subst hk
      simp [alistEntryModify, alistLookup]
    · simp [alistEntryModify, alistLookup, hk, ih]

theorem alistLookup_entryModify_other {α : Type} (dflt : α) (l : List (Nat × α)) (k k2 : Nat)
    (f : α → α) (h : k2 ≠ k) :
    alistLookup (alistEntryModify dflt l k f) k2 = alistLookup l k2 := by
  induction l with
  | nil => simp [alistEntryModify, alistLookup, Ne.symm h]
  | cons hd tl ih =>
    obtain ⟨k0, v0⟩ := hd
    by_cases hk : k0 = k
    · subst hk
      simp [alistEntryModify, alistLookup, Ne.symm h]
    · by_cases hk2 : k0 = k2
      · subst hk2
        simp [alistEntryModify, alistLookup, hk]
      · simp [alistEntryModify, alistLookup, hk, hk2, ih]

theorem mem_hsInsert_self (s : List Nat) (v : Nat) : v ∈ hsInsert s v := by
  by_cases h : v ∈ s <;> simp [hsInsert, h]

/-- C8: the contract of Topology::add_connection: a self edge is a no-op, an
existing edge is a no-op, a genuinely new edge becomes visible through
are_connected in both directions, and the operation is idempotent. -/
theorem add_connection_contract (t : Topology) (a b : Nat) :
    (a = b → t.add_connection a b = t) ∧
    (t.are_connected a b = true → t.add_connection a b = t) ∧
    (a ≠ b → t.are_connected a b = false →
      (t.add_connection a b).are_connected a b = true ∧
        (t.add_connection a b).are_connected b a = true) ∧
    (t.add_connection a b).add_connection a b = t.add_connection a b := by
  have hself : ∀ t2 : Topology, a = b → t2.add_connection a b = t2 := fun t2 h => by
    simp [Topology.add_connection, h]
  have hdup : ∀ t2 : Topology, t2.are_connected a b = true → t2.add_connection a b = t2 :=
    fun t2 h => by
      by_cases hab : a = b <;> simp [Topology.add_connection, hab, h]
  have hnew : a ≠ b → t.are_connected a b = false →
      (t.add_connection a b).are_connected a b = true ∧
        (t.add_connection a b).are_connected b a = true := by
    intro hab hcon
    have hadd : (t.add_connection a b).connections =
        alistEntryModify []
          (alistEntryModify [] t.connections a (fun s => hsInsert s b))
          b (fun s => hsInsert s a) := by
      simp [Topology.add_connection, hab, hcon]
    constructor
    · have hlook : alistLookup (t.add_connection a b).connections a =
          some (hsInsert ((alistLookup t.connections a).getD []) b) := by
        rw [hadd, alistLookup_entryModify_other _ _ _ _ _ hab,
          alistLookup_entryModify_self]
      simp only [Topology.are_connected, hlook, Option.map_some', Option.getD_some]
      exact List.elem_eq_true_of_mem (mem_hsInsert_self _ b)
    · have hlook : alistLookup (t.add_connection a b).connections b =
          some (hsInsert ((alistLookup t.connections b).getD []) a) := by
        rw [hadd, alistLookup_entryModify_self,
          alistLookup_entryModify_other _ _ _ _ _ (Ne.symm hab)]
      simp only [Topology.are_connected, hlook, Option.map_some', Option.getD_some]
      exact List.elem_eq_true_of_mem (mem_hsInsert_self _ a)
  refine ⟨hself t, hdup t, hnew, ?_⟩
  by_cases hab : a = b
  · rw [hself (t.add_connection a b) hab]
  · by_cases hcon : t.are_connected a b = true
    · rw [hdup t hcon, hdup t hcon]
    · have h1 := (hnew hab (Bool.not_eq_true _ ▸ hcon : t.are_connected a b = false)).1
      exact hdup (t.add_connection a b) h1

theorem add_connection_contract_witness :
    (Topology.new.add_connection 0 1).are_connected 0 1 = true ∧
    (Topology.new.add_connection 0 1).are_connected 1 0 = true :=
  (add_connection_contract Topology.new 0 1).2.2.1 (by decide) (by decide)

/- ---------------------------------------------------------------------
   C3: batches have pairwise-distinct opposers.
   --------------------------------------------------------------------- -/

theorem batchInner_opposers_nodup (max_parallel proposer_id : Nat) :
    ∀ (targets : List Nat) (batch : List (Nat × Nat)) (used : List Nat),
      (batch.map Prod.snd).Nodup →
      (∀ x ∈ batch.map Prod.snd, x ∈ used) →
      ((batchInner max_parallel proposer_id targets batch used).1.map Prod.snd).Nodup ∧
        (∀ x ∈ (batchInner max_parallel proposer_id targets batch used).1.map Prod.snd,
          x ∈ (batchInner max_parallel proposer_id targets batch used).2.1) ∧
        (∀ x ∈ used, x ∈ (batchInner max_parallel proposer_id targets batch used).2.1) := by
  intro targets
  induction targets with
  | nil => exact fun batch used h1 h2 => ⟨h1, h2, fun x hx => hx⟩
  | cons o rest ih =>
    intro batch used h1 h2
    by_cases hmem : o ∈ used
    · simpa [batchInner, hmem] using ih batch used h1 h2
    · have h1b : ((batch ++ [(proposer_id, o)]).map Prod.snd).Nodup := by
        simp only [List.map_append, List.map_cons, List.map_nil]
        refine List.Nodup.append h1 (List.nodup_singleton o) ?_
        intro x hx hxo
        simp only [List.mem_singleton] at hxo
        exact hmem (hxo ▸ h2 x hx)
      have h2b : ∀ x ∈ (batch ++ [(proposer_id, o)]).map Prod.snd, x ∈ used ++ [o] := by
        intro x hx
        simp only [List.map_append, List.map_cons, List.map_nil, List.mem_append,
          List.mem_singleton] at hx
        rcases hx with hx | hx
        · exact List.mem_append.mpr (Or.inl (h2 x hx))
        · exact List.mem_append.mpr (Or.inr (by simp [hx]))
      by_cases hfull : max_parallel ≤ (batch ++ [(proposer_id, o)]).length
      · refine ?_
        simp only [batchInner, if_neg hmem, if_pos hfull]
        exact ⟨h1b, h2b, fun x hx => List.mem_append.mpr (Or.inl hx)⟩
      · have := ih (batch ++ [(proposer_id, o)]) (used ++ [o]) h1b h2b
        simp only [batchInner, if_neg hmem, if_neg hfull]
        exact ⟨this.1, this.2.1,
          fun x hx => this.2.2 x (List.mem_append.mpr (Or.inl hx))⟩

theorem batchOuter_opposers_nodup (max_parallel : Nat) (r : Registry) :
    ∀ (deque : List Nat) (batch : List (Nat × Nat)) (used : List Nat),
      (batch.map Prod.snd).Nodup →
      (∀ x ∈ batch.map Prod.snd, x ∈ used) →
      ((batchOuter max_parallel r deque batch used).map Prod.snd).Nodup := by
  intro deque
  induction deque with
  | nil => exact fun batch used h1 _ => h1
  | cons p rest ih =>
    intro batch used h1 h2
    have hinner := batchInner_opposers_nodup max_parallel p
      (r.get_potential_targets p) batch used h1 h2
    simp only [batchOuter]
    by_cases hfull : (batchInner max_parallel p (r.get_potential_targets p) batch used).2.2 = true
    · simp only [hfull, if_pos]
      exact hinner.1
    · simp only [Bool.not_eq_true] at hfull
      simp only [hfull]
      exact ih _ _ hinner.1 hinner.2.1

/-- C3: for every registry and frontier deque, build_debate_batch returns a
batch in which no opposer id appears twice. -/
theorem build_debate_batch_opposers_nodup (max_parallel : Nat) (r : Registry)
    (infected_deque : List Nat) :
    ((build_debate_batch max_parallel r infected_deque).map Prod.snd).Nodup :=
  batchOuter_opposers_nodup max_parallel r infected_deque [] [] (by simp) (by simp)

/- ---------------------------------------------------------------------
   C4: re-seeding an already infected agent.
   --------------------------------------------------------------------- -/

/-- C4 counterexample: in demoRegistry agent 1 is Infected with
infected_by = some 0. Re-seeding agent 1 does not fail: infect_patient_init
returns Ok and silently resets infected_by to none, overwriting the
back-reference. This refutes the claim that seeding an already-active node
fails and leaves the node unmodified. -/
theorem infect_patient_init_overwrites_counterexample :
    (demoRegistry.get_agent 1).map Agent.is_infected = some true ∧
    (demoRegistry.get_agent 1).map Agent.infected_by = some (some 0) ∧
    (demoRegistry.infect_patient_init 1).isOk = true ∧
    (((demoRegistry.infect_patient_init 1).toOption.getD demoRegistry).get_agent 1).map
      Agent.infected_by = some none := by
  refine ⟨rfl, rfl, rfl, rfl⟩

/-- C4 amended: seeding an unknown node identifier fails with a not-found
error (that part of the claim is right), but seeding an existing node always
succeeds, whatever its current state: the node is set to Infected and its
infected_by back-reference is reset to none, silently overwriting any
previously recorded infector. -/
theorem infect_patient_init_spec (r : Registry) (id : Nat) :
    (r.get_agent id = none →
      r.infect_patient_init id = .error ("Agent " ++ toString id ++ " not found")) ∧
    (∀ a, r.get_agent id = some a →
      (r.infect_patient_init id).isOk = true ∧
      ((r.infect_patient_init id).toOption.getD r).get_agent id =
        some { a with infection_status := .Infected, infected_by := none }) := by
  constructor
  · intro h
    simp [Registry.infect_patient_init, Registry.get_agent] at h ⊢
    simp [h]
  · intro a h
    have h2 : alistLookup r.agents id = some a := h
    constructor
    · simp [Registry.infect_patient_init, h2, Except.isOk, Except.toBool]
    · simp only [Registry.infect_patient_init, h2, Except.toOption, Option.getD_some]
      exact alistLookup_update_self r.agents id _ a h2

theorem infect_patient_init_spec_witness :
    (demoRegistry.infect_patient_init 1).isOk = true ∧
    ((demoRegistry.infect_patient_init 1).toOption.getD demoRegistry).get_agent 1 =
      some { demoAgent1 with infection_status := .Infected, infected_by := none } :=
  (infect_patient_init_spec demoRegistry 1).2 demoAgent1 (by decide)

/- ---------------------------------------------------------------------
   C10: apply_debate_outcome checks only the opposer's existence.
   --------------------------------------------------------------------- -/

/-- C10: apply_debate_outcome fails exactly when the opposer id is unknown
(whatever the proposer id, the states of either agent, or the topology); on a
known opposer it returns Ok and rewrites the opposer with the outcome applied
unconditionally; and an Ongoing outcome leaves the registry completely
unchanged. -/
theorem apply_debate_outcome_spec (r : Registry) (p o : Nat) (outcome : DebateOutcome) :
    ((r.apply_debate_outcome p o outcome).isOk = true ↔ (r.get_agent o).isSome = true) ∧
    (r.get_agent o = none → r.apply_debate_outcome p o outcome = .error "opposer not found") ∧
    (∀ a, r.get_agent o = some a →
      r.apply_debate_outcome p o outcome =
        .ok { r with agents := alistUpdate r.agents o (applyOutcomeToOpposer p outcome) }) ∧
    ((r.get_agent o).isSome = true → outcome = .Ongoing →
      r.apply_debate_outcome p o outcome = .ok r) := by
  refine ⟨?_, ?_, ?_, ?_⟩
  · cases h : alistLookup r.agents o <;>
      simp [Registry.apply_debate_outcome, Registry.get_agent, h, Except.isOk, Except.toBool]
  · intro h
    have h2 : alistLookup r.agents o = none := h
    simp [Registry.apply_debate_outcome, h2]
  · intro a h
    have h2 : alistLookup r.agents o = some a := h
    simp [Registry.apply_debate_outcome, h2]
  · intro h hout
    subst hout
    rcases Option.isSome_iff_exists.mp (by simpa [Registry.get_agent] using h) with ⟨a, h2⟩
    simp only [Registry.apply_debate_outcome, h2]
    have hid : alistUpdate r.agents o (applyOutcomeToOpposer p .Ongoing) = r.agents := by
      have : applyOutcomeToOpposer p .Ongoing = fun a => a := rfl
      rw [this, alistUpdate_id]
    simp [hid]

theorem apply_debate_outcome_spec_witness :
    (seededRegistry.apply_debate_outcome 0 1 .Ongoing = .ok seededRegistry) ∧
    (seededRegistry.apply_debate_outcome 0 5 .ProposerWon = .error "opposer not found") :=
  ⟨(apply_debate_outcome_spec seededRegistry 0 1 .Ongoing).2.2.2 (by decide) rfl,
    (apply_debate_outcome_spec seededRegistry 0 5 .ProposerWon).2.1 (by decide)⟩

/- ---------------------------------------------------------------------
   C6: monotonicity of node state over reconciliation steps.
   --------------------------------------------------------------------- -/

theorem mem_get_potential_targets (r : Registry) (p x : Nat) :
    x ∈ r.get_potential_targets p ↔
      ∃ t, r.topology = some t ∧ x ∈ t.get_neighbors p ∧ healthyB r x = true := by
  cases ht : r.topology with
  | none => simp [Registry.get_potential_targets, ht]
  | some t =>
    simp only [Registry.get_potential_targets, ht, List.mem_filter, healthyB,
      Option.some.injEq]
    constructor
    · rintro ⟨hmem, hh⟩
      exact ⟨t, rfl, hmem, hh⟩
    · rintro ⟨t2, ht2, hmem, hh⟩
      exact ⟨ht2 ▸ hmem, hh⟩

theorem healthyB_lookup (r : Registry) (x : Nat) (h : healthyB r x = true) :
    ∃ a, r.get_agent x = some a ∧ a.is_healthy = true := by
  cases hl : r.get_agent x with
  | none => simp [healthyB, hl] at h
  | some a => exact ⟨a, rfl, by simpa [healthyB, hl] using h⟩

/-- A single reconciliation step leaves every non-healthy agent untouched:
the opposer it modifies is drawn from get_potential_targets and hence healthy
at apply time. -/
theorem reconStep_preserves_nonhealthy (r r2 : Registry) (h : ReconStep r r2)
    (id : Nat) (a : Agent) (hget : r.get_agent id = some a)
    (hnh : a.is_healthy = false) : r2.get_agent id = some a := by
  obtain ⟨p, o, outcome, hmem, happly⟩ := h
  obtain ⟨t, -, -, hho⟩ := (mem_get_potential_targets r p o).mp hmem
  obtain ⟨ao, hgeto, hhealthy⟩ := healthyB_lookup r o hho
  have hne : id ≠ o := by
    intro he
    subst he
    rw [hget] at hgeto
    cases hgeto
    rw [hhealthy] at hnh
    cases hnh
  have h2 : alistLookup r.agents o = some ao := hgeto
  simp only [Registry.apply_debate_outcome, h2] at happly
  cases happly
  simpa [Registry.get_agent, alistLookup_update_other _ _ _ _ hne] using hget

/-- C6: along any sequence of reconciliation steps, an Immune (Resistant)
agent never changes again, and an Infected (Active) agent never reverts to
Healthy (Susceptible): both are preserved with their exact stored value. -/
theorem node_state_monotone (r r2 : Registry) (h : Relation.ReflTransGen ReconStep r r2)
    (id : Nat) (a : Agent) (hget : r.get_agent id = some a) :
    (a.is_immune = true → r2.get_agent id = some a) ∧
    (a.is_infected = true → r2.get_agent id = some a ∧ a.is_healthy = false) := by
  have key : a.is_healthy = false → r2.get_agent id = some a := by
    intro hnh
    induction h with
    | refl => exact hget
    | tail hsteps hstep ih =>
      exact reconStep_preserves_nonhealthy _ _ hstep id a ih hnh
  constructor
  · intro himm
    refine key ?_
    cases hst : a.infection_status
    case Healthy => simp [Agent.is_immune, hst] at himm
    case Infected => simp [Agent.is_immune, hst] at himm
    case Immune => simp [Agent.is_healthy, hst]
  · intro hinf
    have hnh : a.is_healthy = false := by
      cases hst : a.infection_status
      case Healthy => simp [Agent.is_infected, hst] at hinf
      case Infected => simp [Agent.is_healthy, hst]
      case Immune => simp [Agent.is_healthy, hst]
    exact ⟨key hnh, hnh⟩

theorem node_state_monotone_witness :
    demoRegistry.get_agent 1 = some demoAgent1 ∧ demoAgent1.is_healthy = false :=
  (node_state_monotone demoRegistry demoRegistry Relation.ReflTransGen.refl 1 demoAgent1
    (by decide)).2 (by decide)

/- ---------------------------------------------------------------------
   Support lemmas for the run-loop proofs (C1, C2).
   --------------------------------------------------------------------- -/

theorem infectedB_lookup (r : Registry) (x : Nat) (h : infectedB r x = true) :
    ∃ a, r.get_agent x = some a ∧ a.is_infected = true := by
  cases hl : r.get_agent x with
  | none => simp [infectedB, hl] at h
  | some a => exact ⟨a, rfl, by simpa [infectedB, hl] using h⟩

theorem is_infected_not_healthy (a : Agent) (h : a.is_infected = true) :
    a.is_healthy = false := by
  cases hst : a.infection_status
  case Healthy => simp [Agent.is_infected, hst] at h
  case Infected => simp [Agent.is_healthy, hst]
  case Immune => simp [Agent.is_healthy, hst]

theorem are_connected_of_mem_neighbors (t : Topology) (p o : Nat)
    (h : o ∈ t.get_neighbors p) : t.are_connected p o = true := by
  cases hl : alistLookup t.connections p with
  | none => simp [Topology.get_neighbors, hl] at h
  | some s =>
    simp only [Topology.get_neighbors, hl, Option.getD_some] at h
    simp only [Topology.are_connected, hl, Option.map_some', Option.getD_some]
    exact List.elem_eq_true_of_mem h

theorem can_debate_of_target (r : Registry) (p o : Nat)
    (hp : infectedB r p = true) (ho : o ∈ r.get_potential_targets p) :
    r.can_debate p o = .ok () := by
  obtain ⟨t, ht, hnb, hho⟩ := (mem_get_potential_targets r p o).mp ho
  obtain ⟨a, hga, hah⟩ := healthyB_lookup r o hho
  obtain ⟨pr, hgp, hpi⟩ := infectedB_lookup r p hp
  have hconn : t.are_connected p o = true := are_connected_of_mem_neighbors t p o hnb
  simp [Registry.can_debate, hgp, hga, hpi, hah, ht, hconn]

theorem get_potential_targets_nodup (r : Registry) (p : Nat)
    (h : topoWFb r.topology = true) : (r.get_potential_targets p).Nodup := by
  cases ht : r.topology with
  | none => simp [Registry.get_potential_targets, ht]
  | some t =>
    simp only [Registry.get_potential_targets, ht]
    refine List.Nodup.filter _ ?_
    cases hl : alistLookup t.connections p with
    | none => simp [Topology.get_neighbors, hl]
    | some s =>
      simp only [Topology.get_neighbors, hl, Option.getD_some]
      have hmem := alistLookup_mem t.connections p s hl
      rw [ht] at h
      simp only [topoWFb, List.all_eq_true, decide_eq_true_eq] at h
      exact h (p, s) hmem

theorem apply_outcome_ok (r : Registry) (p o : Nat) (out : DebateOutcome) (a : Agent)
    (hga : alistLookup r.agents o = some a) :
    r.apply_debate_outcome p o out =
      .ok { r with agents := alistUpdate r.agents o (applyOutcomeToOpposer p out) } := by
  simp [Registry.apply_debate_outcome, hga]

theorem applied_not_healthy (p : Nat) (out : DebateOutcome) (a : Agent)
    (hout : out ≠ .Ongoing) : (applyOutcomeToOpposer p out a).is_healthy = false := by
  cases out with
  | Ongoing => exact absurd rfl hout
  | ProposerWon => rfl
  | OpposerWon => rfl

theorem healthy_count_after_apply (r : Registry) (p o : Nat) (out : DebateOutcome) (a : Agent)
    (hkeys : KeysNodup r) (hga : alistLookup r.agents o = some a) (hah : a.is_healthy = true)
    (hout : out ≠ .Ongoing) :
    ({ r with agents := alistUpdate r.agents o (applyOutcomeToOpposer p out) } : Registry).healthy_count
      + 1 = r.healthy_count := by
  have hres : (applyOutcomeToOpposer p out a).is_healthy = false :=
    applied_not_healthy p out a hout
  have h2 := alistUpdate_filter_length (fun q => q.2.is_healthy) r.agents o
    (applyOutcomeToOpposer p out) a hkeys hga
  simp only [hah, hres, if_true, if_false] at h2
  simpa [Registry.healthy_count] using h2

theorem keysNodup_after_apply (r : Registry) (o : Nat) (f : Agent → Agent)
    (hkeys : KeysNodup r) :
    KeysNodup ({ r with agents := alistUpdate r.agents o f } : Registry) := by
  show ((alistUpdate r.agents o f).map Prod.fst).Nodup
  rw [alistUpdate_keys]
  exact hkeys

theorem get_infected_agent_ids_length (r : Registry) :
    r.get_infected_agent_ids.length = r.infected_count := by
  simp [Registry.get_infected_agent_ids, Registry.infected_count]

theorem infectedB_of_mem_infected_ids (r : Registry) (x : Nat) (hkeys : KeysNodup r)
    (h : x ∈ r.get_infected_agent_ids) : infectedB r x = true := by
  simp only [Registry.get_infected_agent_ids, List.mem_map, List.mem_filter] at h
  obtain ⟨⟨k, a⟩, ⟨hmem, hinf⟩, hfst⟩ := h
  have hx : k = x := hfst
  subst hx
  have hl : alistLookup r.agents k = some a := alistLookup_of_mem r.agents k a hkeys hmem
  simp [infectedB, Registry.get_agent, hl, hinf]

theorem infectedB_after_apply_other (r : Registry) (o : Nat) (f : Agent → Agent) (x : Nat)
    (hne : x ≠ o) :
    infectedB ({ r with agents := alistUpdate r.agents o f } : Registry) x = infectedB r x := by
  simp [infectedB, Registry.get_agent, alistLookup_update_other r.agents o x f hne]

theorem healthyB_after_apply_other (r : Registry) (o : Nat) (f : Agent → Agent) (x : Nat)
    (hne : x ≠ o) :
    healthyB ({ r with agents := alistUpdate r.agents o f } : Registry) x = healthyB r x := by
  simp [healthyB, Registry.get_agent, alistLookup_update_other r.agents o x f hne]

theorem infected_ne_healthy_target (r : Registry) (x o : Nat)
    (hx : infectedB r x = true) (ho : healthyB r o = true) : x ≠ o := by
  intro he
  subst he
  obtain ⟨a, hga, hai⟩ := infectedB_lookup r x hx
  obtain ⟨b, hgb, hbh⟩ := healthyB_lookup r x ho
  rw [hga] at hgb
  injection hgb with hb
  subst hb
  rw [is_infected_not_healthy a hai] at hbh
  cases hbh

/-- One pass of the inner target loop: under the scheduler invariants it
cannot fail, it preserves the invariants, and it does not increase the
termination potential (frontier length plus healthy count). -/
theorem stepTargets_run (oracle : Nat → Nat → DebateOutcome)
    (hOracle : ∀ a b, oracle a b ≠ .Ongoing) (p : Nat) :
    ∀ (targets : List Nat) (s : SimState),
      KeysNodup s.registry →
      infectedB s.registry p = true →
      (∀ x ∈ s.frontier, infectedB s.registry x = true) →
      targets.Nodup →
      (∀ x ∈ targets, x ∈ s.registry.get_potential_targets p) →
      ∃ s3, stepTargets oracle p targets s = .ok s3 ∧
        KeysNodup s3.registry ∧
        (∀ x ∈ s3.frontier, infectedB s3.registry x = true) ∧
        s3.frontier.length + s3.registry.healthy_count ≤
          s.frontier.length + s.registry.healthy_count ∧
        s3.registry.topology = s.registry.topology := by
  intro targets
  induction targets with
  | nil =>
    intro s h1 _ h3 _ _
    exact ⟨s, rfl, h1, h3, le_refl _, rfl⟩
  | cons o rest ih =>
    intro s hkeys hp hfront hnd htargets
    by_cases hv : (p, o) ∈ s.visited
    · obtain ⟨s3, hrun, hprops⟩ := ih s hkeys hp hfront (List.Nodup.of_cons hnd)
        (fun x hx => htargets x (List.mem_cons_of_mem _ hx))
      exact ⟨s3, by simpa [stepTargets, hv] using hrun, hprops⟩
    · have hmem : o ∈ s.registry.get_potential_targets p := htargets o (List.mem_cons_self o rest)
      obtain ⟨t, ht, hnb, hho⟩ := (mem_get_potential_targets _ _ _).mp hmem
      obtain ⟨a, hga, hah⟩ := healthyB_lookup _ _ hho
      have hga2 : alistLookup s.registry.agents o = some a := hga
      have hcd : s.registry.can_debate p o = .ok () := can_debate_of_target _ _ _ hp hmem
      have hpo : p ≠ o := infected_ne_healthy_target s.registry p o hp hho
      have houtno : oracle p o ≠ .Ongoing := hOracle p o
      set r2 : Registry :=
        { s.registry with
          agents := alistUpdate s.registry.agents o (applyOutcomeToOpposer p (oracle p o)) }
        with hr2
      have happly : s.registry.apply_debate_outcome p o (oracle p o) = .ok r2 :=
        apply_outcome_ok _ _ _ _ _ hga2
      set s2 : SimState :=
        { registry := r2,
          frontier := if oracle p o = .ProposerWon then s.frontier ++ [o] else s.frontier,
          visited := s.visited ++ [(p, o)],
          debates := s.debates ++ [(p, o, oracle p o)] } with hs2
      have hrdo : run_debate_outcome s.registry p o oracle = .ok (oracle p o) := by
        simp [run_debate_outcome, hcd]
      have hstep : stepTargets oracle p (o :: rest) s = stepTargets oracle p rest s2 := by
        simp only [stepTargets, if_neg hv, hrdo, happly, hs2]
      have hkeys2 : KeysNodup r2 := keysNodup_after_apply _ _ _ hkeys
      have hp2 : infectedB r2 p = true := by
        rw [hr2, infectedB_after_apply_other _ _ _ _ hpo]
        exact hp
      have hzo : r2.get_agent o = some (applyOutcomeToOpposer p (oracle p o) a) := by
        rw [hr2]
        exact alistLookup_update_self _ _ _ _ hga2
      have hfront2 : ∀ x ∈ s2.frontier, infectedB r2 x = true := by
        intro x hx
        have hold : x ∈ s.frontier → infectedB r2 x = true := by
          intro hxs
          have hxi := hfront x hxs
          have hxo : x ≠ o := infected_ne_healthy_target s.registry x o hxi hho
          rw [hr2, infectedB_after_apply_other _ _ _ _ hxo]
          exact hxi
        by_cases hw : oracle p o = .ProposerWon
        · rw [hs2] at hx
          simp only [hw, if_pos] at hx
          rcases List.mem_append.mp hx with hx2 | hx2
          · exact hold hx2
          · have hxo : x = o := by simpa using hx2
            subst hxo
            rw [hw] at hzo
            simp [infectedB, hzo, applyOutcomeToOpposer, Agent.is_infected]
        · rw [hs2] at hx
          simp only [hw, if_neg, if_false] at hx
          exact hold hx
      have hrest : ∀ x ∈ rest, x ∈ r2.get_potential_targets p := by
        intro x hx
        have hxs := htargets x (List.mem_cons_of_mem _ hx)
        obtain ⟨t2, ht2, hnb2, hhx⟩ := (mem_get_potential_targets _ _ _).mp hxs
        have hxo : x ≠ o := by
          intro he
          subst he
          exact (List.nodup_cons.mp hnd).1 hx
        refine (mem_get_potential_targets _ _ _).mpr ⟨t2, ?_, hnb2, ?_⟩
        · rw [hr2]
          exact ht2
        · rw [hr2, healthyB_after_apply_other _ _ _ _ hxo]
          exact hhx
      obtain ⟨s3, hrun3, hkeys3, hfront3, hbound3, htopo3⟩ :=
        ih s2 hkeys2 hp2 hfront2 (List.Nodup.of_cons hnd) hrest
      have hdec : r2.healthy_count + 1 = s.registry.healthy_count := by
        rw [hr2]
        exact healthy_count_after_apply s.registry p o (oracle p o) a hkeys hga2 hah houtno
      have hb2 : s2.frontier.length + s2.registry.healthy_count ≤
          s.frontier.length + s.registry.healthy_count := by
        rw [hs2]
        by_cases hw : oracle p o = .ProposerWon <;> simp [hw] <;> omega
      refine ⟨s3, hstep.trans hrun3, hkeys3, hfront3, le_trans hbound3 hb2, htopo3.trans ?_⟩
      rw [hs2, hr2]

theorem runLoop_eq_nil (oracle : Nat → Nat → DebateOutcome) (fuel : Nat) (s : SimState)
    (hf : s.frontier = []) : runLoop oracle fuel s = .ok s := by
  rcases s with ⟨reg, fr, vis, deb⟩
  subst hf
  cases fuel <;> rfl

theorem runLoop_eq_zero (oracle : Nat → Nat → DebateOutcome) (s : SimState) (p : Nat)
    (rest : List Nat) (hf : s.frontier = p :: rest) :
    runLoop oracle 0 s = .error "iteration bound exhausted" := by
  rcases s with ⟨reg, fr, vis, deb⟩
  subst hf
  rfl

theorem runLoop_eq_succ (oracle : Nat → Nat → DebateOutcome) (fuel : Nat) (s : SimState)
    (p : Nat) (rest : List Nat) (hf : s.frontier = p :: rest) :
    runLoop oracle (fuel + 1) s =
      match stepTargets oracle p (s.registry.get_potential_targets p)
          { s with frontier := rest } with
      | .error e => .error e
      | .ok s2 => runLoop oracle fuel s2 := by
  rcases s with ⟨reg, fr, vis, deb⟩
  subst hf
  rfl

/-- The outer while loop: with fuel at least the termination potential
(frontier length plus healthy count), the loop reaches an empty frontier. -/
theorem runLoop_run (oracle : Nat → Nat → DebateOutcome)
    (hOracle : ∀ a b, oracle a b ≠ .Ongoing) :
    ∀ (fuel : Nat) (s : SimState),
      KeysNodup s.registry →
      topoWFb s.registry.topology = true →
      (∀ x ∈ s.frontier, infectedB s.registry x = true) →
      s.frontier.length + s.registry.healthy_count ≤ fuel →
      ∃ s2, runLoop oracle fuel s = .ok s2 ∧ s2.frontier = [] := by
  intro fuel
  induction fuel with
  | zero =>
    intro s _ _ _ hbound
    cases hf : s.frontier with
    | nil => exact ⟨s, runLoop_eq_nil oracle 0 s hf, hf⟩
    | cons p rest =>
      rw [hf] at hbound
      simp [List.length_cons] at hbound
  | succ fuel ih =>
    intro s hkeys htopo hfront hbound
    cases hf : s.frontier with
    | nil => exact ⟨s, runLoop_eq_nil oracle (fuel + 1) s hf, hf⟩
    | cons p rest =>
      set s1 : SimState := { s with frontier := rest } with hs1
      have hndtargets : (s.registry.get_potential_targets p).Nodup :=
        get_potential_targets_nodup s.registry p htopo
      have hpmem : p ∈ s.frontier := by rw [hf]; exact List.mem_cons_self p rest
      obtain ⟨s2, hrun, hkeys2, hfront2, hbound2, htopo2⟩ :=
        stepTargets_run oracle hOracle p (s.registry.get_potential_targets p) s1
          hkeys (hfront p hpmem)
          (fun x hx => hfront x (by rw [hf]; exact List.mem_cons_of_mem _ hx))
          hndtargets (fun x hx => hx)
      have htopo2b : topoWFb s2.registry.topology = true := by
        rw [htopo2]
        exact htopo
      have hb2 : s2.frontier.length + s2.registry.healthy_count ≤ fuel := by
        have hb1 : s1.frontier.length + s1.registry.healthy_count =
            rest.length + s.registry.healthy_count := by
          rw [hs1]
        rw [hf] at hbound
        simp only [List.length_cons] at hbound
        omega
      obtain ⟨s3, hrun3, hf3⟩ := ih s2 hkeys2 htopo2b hfront2 hb2
      refine ⟨s3, ?_, hf3⟩
      rw [hs1] at hrun
      rw [runLoop_eq_succ oracle fuel s p rest hf, hrun]
      exact hrun3

/-- C1: for every registry (finite topology and finite seed set) and every
resolver oracle that always returns a concluding outcome, the sequential run
loop of Simulation::run reaches an empty frontier within agent_count loop
iterations: running it with fuel equal to the number of agents returns Ok, and
an Ok result is only produced when the frontier empties before the fuel runs
out. -/
theorem simulation_run_terminates (r : Registry) (oracle : Nat → Nat → DebateOutcome)
    (hkeys : KeysNodup r) (htopo : topoWFb r.topology = true)
    (hOracle : ∀ a b, oracle a b ≠ .Ongoing) :
    ∃ s2, runLoop oracle r.agent_count (initState r) = .ok s2 ∧ s2.frontier = [] := by
  apply runLoop_run oracle hOracle r.agent_count (initState r) hkeys htopo
  · intro x hx
    exact infectedB_of_mem_infected_ids r x hkeys hx
  · have hpart := status_filter_partition r.agents
    have hlen : r.get_infected_agent_ids.length = r.infected_count :=
      get_infected_agent_ids_length r
    simp only [initState]
    rw [hlen]
    simp only [Registry.infected_count, Registry.healthy_count, Registry.agent_count] at hpart ⊢
    omega

theorem simulation_run_terminates_witness :
    ∃ s2, runLoop proposerOracle seededRegistry.agent_count (initState seededRegistry) = .ok s2 ∧
      s2.frontier = [] :=
  simulation_run_terminates seededRegistry proposerOracle
    (by decide : ((seededRegistry.agents.map Prod.fst)).Nodup) (by decide)
    (fun _ _ => by simp [proposerOracle])

/- ---------------------------------------------------------------------
   C2: each ordered pair is debated at most once per run.
   --------------------------------------------------------------------- -/

/-- The de-duplication invariant of the sequential run loop: the logged
debate pairs are duplicate-free and all recorded in visited_edges. -/
def simInv (s : SimState) : Prop :=
  (s.debates.map debatePair).Nodup ∧ ∀ q ∈ s.debates.map debatePair, q ∈ s.visited

theorem stepTargets_inv (oracle : Nat → Nat → DebateOutcome) (p : Nat) :
    ∀ (targets : List Nat) (s s2 : SimState),
      simInv s → stepTargets oracle p targets s = .ok s2 → simInv s2 := by
  intro targets
  induction targets with
  | nil =>
    intro s s2 hinv h
    simp only [stepTargets] at h
    cases h
    exact hinv
  | cons o rest ih =>
    intro s s2 hinv h
    simp only [stepTargets] at h
    by_cases hv : (p, o) ∈ s.visited
    · rw [if_pos hv] at h
      exact ih _ _ hinv h
    · rw [if_neg hv] at h
      obtain ⟨hnd, hsub⟩ := hinv
      split at h
      · exact Except.noConfusion h
      · split at h
        · exact Except.noConfusion h
        · refine ih _ _ ⟨?_, ?_⟩ h
          · simp only [List.map_append, List.map_cons, List.map_nil, debatePair]
            refine List.Nodup.append hnd (List.nodup_singleton _) ?_
            intro q hq hq2
            simp only [List.mem_singleton] at hq2
            subst hq2
            exact hv (hsub _ hq)
          · intro q hq
            simp only [List.map_append, List.map_cons, List.map_nil, debatePair,
              List.mem_append, List.mem_singleton] at hq
            rcases hq with hq | hq
            · exact List.mem_append.mpr (Or.inl (hsub _ hq))
            · exact List.mem_append.mpr (Or.inr (by simp [hq]))

theorem runLoop_inv (oracle : Nat → Nat → DebateOutcome) :
    ∀ (fuel : Nat) (s s2 : SimState),
      simInv s → runLoop oracle fuel s = .ok s2 → simInv s2 := by
  intro fuel
  induction fuel with
  | zero =>
    intro s s2 hinv h
    cases hf : s.frontier with
    | nil =>
      rw [runLoop_eq_nil oracle 0 s hf] at h
      cases h
      exact hinv
    | cons p rest =>
      rw [runLoop_eq_zero oracle s p rest hf] at h
      exact Except.noConfusion h
  | succ fuel ih =>
    intro s s2 hinv h
    cases hf : s.frontier with
    | nil =>
      rw [runLoop_eq_nil oracle (fuel + 1) s hf] at h
      cases h
      exact hinv
    | cons p rest =>
      rw [runLoop_eq_succ oracle fuel s p rest hf] at h
      cases hst : stepTargets oracle p (s.registry.get_potential_targets p)
          { s with frontier := rest } with
      | error e =>
        rw [hst] at h
        exact Except.noConfusion h
      | ok smid =>
        rw [hst] at h
        exact ih smid s2
          (stepTargets_inv oracle p _ { s with frontier := rest } smid hinv hst) h

/-- C2: over any completed sequential run, the (proposer, opposer) pairs
handed to run_debate are pairwise distinct: the visited_edges set guarantees
each ordered pair is debated at most once. -/
theorem run_debate_at_most_once (oracle : Nat → Nat → DebateOutcome) (fuel : Nat)
    (r : Registry) (s2 : SimState)
    (h : runLoop oracle fuel (initState r) = .ok s2) :
    (s2.debates.map debatePair).Nodup :=
  (runLoop_inv oracle fuel (initState r) s2
    ⟨by simp [initState], by simp [initState]⟩ h).1

theorem run_debate_at_most_once_witness :
    ((((runLoop proposerOracle 2 (initState seededRegistry)).toOption.getD
        (initState seededRegistry)).debates).map debatePair).Nodup :=
  run_debate_at_most_once proposerOracle 2 seededRegistry _ (by rfl)

end NamShub
